import Mathlib

set_option linter.unusedVariables false

/-!
Shallow embedding of the interpreter bytecode-array writer
(src/interpreter/bytecode-array-writer.cc): the instruction encoder, the
label and jump resolver, the patch procedure and the finalizer. External
collaborators whose code is not part of the repository slice (the operand
metadata tables, the constant pool builder, the label class and the small
Bytecodes helper functions) are modelled from the specification; each such
definition carries a doc comment saying so. Machine arithmetic is modelled
on Nat and Int with explicit reductions modulo powers of two where the
source casts between integer types.
-/

/-- Modelled from the spec: the operand byte widths. The numeric values
match the width in bytes (kNone = 0, kByte = 1, kShort = 2, kQuad = 4),
which is also how the enum compares in the source. -/
inductive OperandSize where
  | kNone
  | kByte
  | kShort
  | kQuad
  deriving DecidableEq

/-- Numeric value of an operand size, equal to its width in bytes. -/
def OperandSize.value : OperandSize → Nat
  | OperandSize.kNone => 0
  | OperandSize.kByte => 1
  | OperandSize.kShort => 2
  | OperandSize.kQuad => 4

/-- Modelled from the spec: the operand scale (single, double, quadruple),
selecting 1, 2 or 4 byte operand encodings. -/
inductive OperandScale where
  | kSingle
  | kDouble
  | kQuadruple
  deriving DecidableEq

/-- Modelled from the spec: operand kinds, as used by the operand metadata
to classify operand positions (immediate, pool index, register reference,
register count, fixed-width flag). -/
inductive OperandType where
  | kNone
  | kFlag8
  | kIdx
  | kImm
  | kMaybeReg
  | kReg
  | kRegCount
  | kRegPair
  | kRegOut
  | kRegOutPair
  | kRegOutTriple
  deriving DecidableEq

/-- The opcodes that the writer handles specially (the two scale-prefix
markers, the jump opcodes from GetJumpWithConstantOperand and their
constant-operand variants), together with a few ordinary opcodes used to
exercise the plain-write path. Modelled from the spec: the full opcode
list is external operand metadata. -/
inductive Bytecode where
  | kIllegal
  | kWide
  | kExtraWide
  | kJump
  | kJumpConstant
  | kJumpIfTrue
  | kJumpIfTrueConstant
  | kJumpIfFalse
  | kJumpIfFalseConstant
  | kJumpIfToBooleanTrue
  | kJumpIfToBooleanTrueConstant
  | kJumpIfToBooleanFalse
  | kJumpIfToBooleanFalseConstant
  | kJumpIfNotHole
  | kJumpIfNotHoleConstant
  | kJumpIfNull
  | kJumpIfNullConstant
  | kJumpIfUndefined
  | kJumpIfUndefinedConstant
  | kNop
  | kLdar
  | kStar
  | kCall
  deriving DecidableEq

/-- Modelled from the spec: the byte encoding of each opcode (a fixed
injective numbering, as produced by the bytecode enum in the source). -/
def Bytecodes.ToByte : Bytecode → Nat
  | Bytecode.kIllegal => 0
  | Bytecode.kWide => 1
  | Bytecode.kExtraWide => 2
  | Bytecode.kJump => 3
  | Bytecode.kJumpConstant => 4
  | Bytecode.kJumpIfTrue => 5
  | Bytecode.kJumpIfTrueConstant => 6
  | Bytecode.kJumpIfFalse => 7
  | Bytecode.kJumpIfFalseConstant => 8
  | Bytecode.kJumpIfToBooleanTrue => 9
  | Bytecode.kJumpIfToBooleanTrueConstant => 10
  | Bytecode.kJumpIfToBooleanFalse => 11
  | Bytecode.kJumpIfToBooleanFalseConstant => 12
  | Bytecode.kJumpIfNotHole => 13
  | Bytecode.kJumpIfNotHoleConstant => 14
  | Bytecode.kJumpIfNull => 15
  | Bytecode.kJumpIfNullConstant => 16
  | Bytecode.kJumpIfUndefined => 17
  | Bytecode.kJumpIfUndefinedConstant => 18
  | Bytecode.kNop => 19
  | Bytecode.kLdar => 20
  | Bytecode.kStar => 21
  | Bytecode.kCall => 22

/-- Modelled from the spec: decoding a stored byte back to an opcode, the
inverse of Bytecodes.ToByte (bytes outside the table decode to kIllegal). -/
def Bytecodes.FromByte (value : Nat) : Bytecode :=
  match value with
  | 1 => Bytecode.kWide
  | 2 => Bytecode.kExtraWide
  | 3 => Bytecode.kJump
  | 4 => Bytecode.kJumpConstant
  | 5 => Bytecode.kJumpIfTrue
  | 6 => Bytecode.kJumpIfTrueConstant
  | 7 => Bytecode.kJumpIfFalse
  | 8 => Bytecode.kJumpIfFalseConstant
  | 9 => Bytecode.kJumpIfToBooleanTrue
  | 10 => Bytecode.kJumpIfToBooleanTrueConstant
  | 11 => Bytecode.kJumpIfToBooleanFalse
  | 12 => Bytecode.kJumpIfToBooleanFalseConstant
  | 13 => Bytecode.kJumpIfNotHole
  | 14 => Bytecode.kJumpIfNotHoleConstant
  | 15 => Bytecode.kJumpIfNull
  | 16 => Bytecode.kJumpIfNullConstant
  | 17 => Bytecode.kJumpIfUndefined
  | 18 => Bytecode.kJumpIfUndefinedConstant
  | 19 => Bytecode.kNop
  | 20 => Bytecode.kLdar
  | 21 => Bytecode.kStar
  | 22 => Bytecode.kCall
  | _ => Bytecode.kIllegal

/-- Modelled from the spec: the jump opcodes taking an inline immediate
displacement. -/
def Bytecodes.IsJumpImmediate : Bytecode → Bool
  | Bytecode.kJump => true
  | Bytecode.kJumpIfTrue => true
  | Bytecode.kJumpIfFalse => true
  | Bytecode.kJumpIfToBooleanTrue => true
  | Bytecode.kJumpIfToBooleanFalse => true
  | Bytecode.kJumpIfNotHole => true
  | Bytecode.kJumpIfNull => true
  | Bytecode.kJumpIfUndefined => true
  | _ => false

/-- Modelled from the spec: the jump opcodes taking a constant pool index
operand. -/
def Bytecodes.IsJumpConstant : Bytecode → Bool
  | Bytecode.kJumpConstant => true
  | Bytecode.kJumpIfTrueConstant => true
  | Bytecode.kJumpIfFalseConstant => true
  | Bytecode.kJumpIfToBooleanTrueConstant => true
  | Bytecode.kJumpIfToBooleanFalseConstant => true
  | Bytecode.kJumpIfNotHoleConstant => true
  | Bytecode.kJumpIfNullConstant => true
  | Bytecode.kJumpIfUndefinedConstant => true
  | _ => false

/-- Modelled from the spec: a jump opcode is either an immediate jump or a
constant-operand jump. -/
def Bytecodes.IsJump (b : Bytecode) : Bool :=
  Bytecodes.IsJumpImmediate b || Bytecodes.IsJumpConstant b

/-- Modelled from the spec: the fixed mapping from a wider-than-single
operand scale to its reserved prefix opcode. -/
def Bytecodes.OperandScaleToPrefixBytecode : OperandScale → Bytecode
  | OperandScale.kDouble => Bytecode.kWide
  | OperandScale.kQuadruple => Bytecode.kExtraWide
  | OperandScale.kSingle => Bytecode.kIllegal

/-- Modelled from the spec: whether an opcode is a scale-prefix marker. -/
def Bytecodes.IsPrefixScalingBytecode : Bytecode → Bool
  | Bytecode.kWide => true
  | Bytecode.kExtraWide => true
  | _ => false

/-- Modelled from the spec: recovering the operand scale from a
scale-prefix marker. -/
def Bytecodes.PrefixBytecodeToOperandScale : Bytecode → OperandScale
  | Bytecode.kWide => OperandScale.kDouble
  | Bytecode.kExtraWide => OperandScale.kQuadruple
  | _ => OperandScale.kSingle

/-- Modelled from the spec: the minimal signed operand width able to
represent a value (8-bit range, then 16-bit, else 32-bit). -/
def Bytecodes.SizeForSignedOperand (value : Int) : OperandSize :=
  if -128 ≤ value ∧ value ≤ 127 then OperandSize.kByte
  else if -32768 ≤ value ∧ value ≤ 32767 then OperandSize.kShort
  else OperandSize.kQuad

/-- Modelled from the spec: the minimal unsigned operand width able to
represent a value. -/
def Bytecodes.SizeForUnsignedOperand (value : Nat) : OperandSize :=
  if value ≤ 255 then OperandSize.kByte
  else if value ≤ 65535 then OperandSize.kShort
  else OperandSize.kQuad

/-- Modelled from the spec: the operand scale whose width matches an
operand size. -/
def Bytecodes.OperandSizesToScale : OperandSize → OperandScale
  | OperandSize.kShort => OperandScale.kDouble
  | OperandSize.kQuad => OperandScale.kQuadruple
  | _ => OperandScale.kSingle

/-- Modelled from the spec: the byte width of a scalable operand under a
given scale (1, 2 or 4 bytes). -/
def scalableOperandSize : OperandScale → OperandSize
  | OperandScale.kSingle => OperandSize.kByte
  | OperandScale.kDouble => OperandSize.kShort
  | OperandScale.kQuadruple => OperandSize.kQuad

/-- Reinterpretation of an integer as an unsigned 32-bit value, as done by
a static_cast to uint32_t in the source. -/
def toUInt32 (value : Int) : Nat := (value % 4294967296).toNat

/-- Reinterpretation of an integer as a signed 32-bit value, as done by a
static_cast to int or int32_t in the source. -/
def toInt32 (value : Int) : Int :=
  let r := value % 4294967296
  if r < 2147483648 then r else r - 4294967296

/-- Little-endian unaligned write of a 16-bit value, as a 2-byte list. -/
def WriteUnalignedUInt16 (value : Nat) : List Nat :=
  [value % 256, value / 256 % 256]

/-- Little-endian unaligned write of a 32-bit value, as a 4-byte list. -/
def WriteUnalignedUInt32 (value : Nat) : List Nat :=
  [value % 256, value / 256 % 256, value / 65536 % 256, value / 16777216 % 256]

/-- SignedOperand from the source: reduce a signed displacement to the
unsigned bit pattern of the requested width (a two-complement cast to
uint8_t, uint16_t or uint32_t; the kNone arm is unreachable). -/
def SignedOperand (value : Int) (size : OperandSize) : Nat :=
  match size with
  | OperandSize.kByte => (value % 256).toNat
  | OperandSize.kShort => (value % 65536).toNat
  | OperandSize.kQuad => toUInt32 value
  | OperandSize.kNone => 0

/-- GetJumpWithConstantOperand from the source: the static mapping from
each immediate jump opcode to its constant-operand variant (the default
arm is unreachable and returns kIllegal in the source). -/
def GetJumpWithConstantOperand : Bytecode → Bytecode
  | Bytecode.kJump => Bytecode.kJumpConstant
  | Bytecode.kJumpIfTrue => Bytecode.kJumpIfTrueConstant
  | Bytecode.kJumpIfFalse => Bytecode.kJumpIfFalseConstant
  | Bytecode.kJumpIfToBooleanTrue => Bytecode.kJumpIfToBooleanTrueConstant
  | Bytecode.kJumpIfToBooleanFalse => Bytecode.kJumpIfToBooleanFalseConstant
  | Bytecode.kJumpIfNotHole => Bytecode.kJumpIfNotHoleConstant
  | Bytecode.kJumpIfNull => Bytecode.kJumpIfNullConstant
  | Bytecode.kJumpIfUndefined => Bytecode.kJumpIfUndefinedConstant
  | _ => Bytecode.kIllegal

/-- Modelled from the spec: a register-classified operand denotes a
register index; the source converts the stored unsigned operand through
Register::FromOperand on its int32 reinterpretation and reads back the
index. The conversion is modelled as the identity on the signed value. -/
def Register.FromOperand (operand : Int) : Int := operand

/-- Modelled from the spec: the Constant Pool Builder, an external
collaborator. It supports speculative reservation of a slot, discarding a
reservation, and committing a reservation with a concrete value, which
returns the pool index of the committed entry. Committed values are kept
in index order; the number of outstanding reservations is tracked. -/
structure ConstantArrayBuilder where
  entries : List Int
  reserved : Nat
  deriving DecidableEq

/-- Modelled from the spec: reserve a slot and report the operand width
currently sufficient to address it. -/
def ConstantArrayBuilder.CreateReservedEntry (b : ConstantArrayBuilder) :
    OperandSize × ConstantArrayBuilder :=
  (Bytecodes.SizeForUnsignedOperand (b.entries.length + b.reserved),
   { b with reserved := b.reserved + 1 })

/-- Modelled from the spec: release a reservation that turned out to be
unnecessary. -/
def ConstantArrayBuilder.DiscardReservedEntry (b : ConstantArrayBuilder)
    (size : OperandSize) : ConstantArrayBuilder :=
  { b with reserved := b.reserved - 1 }

/-- Modelled from the spec: finalize a reservation with a concrete value,
returning the pool index of the new entry. -/
def ConstantArrayBuilder.CommitReservedEntry (b : ConstantArrayBuilder)
    (size : OperandSize) (value : Int) : Nat × ConstantArrayBuilder :=
  (b.entries.length, { entries := b.entries ++ [value], reserved := b.reserved - 1 })

/-- Modelled from the spec: hand back the immutable pool. -/
def ConstantArrayBuilder.ToFixedArray (b : ConstantArrayBuilder) : List Int :=
  b.entries

/-- Source position info carried by a node (source offset plus statement
flag), valid when present. -/
structure BytecodeSourceInfo where
  source_position : Int
  is_statement : Bool
  deriving DecidableEq

/-- An abstract instruction node: opcode, operand values, operand scale
and optional source position info. -/
structure BytecodeNode where
  bytecode : Bytecode
  operands : List Nat
  operand_scale : OperandScale
  source_info : Option BytecodeSourceInfo
  deriving DecidableEq

/-- BytecodeNode::set_bytecode with a single operand: rewrite the node in
place to carry the given opcode, primary operand and scale. -/
def BytecodeNode.set_bytecode (node : BytecodeNode) (bytecode : Bytecode)
    (operand0 : Nat) (operand_scale : OperandScale) : BytecodeNode :=
  { bytecode := bytecode, operands := [operand0], operand_scale := operand_scale,
    source_info := node.source_info }

/-- Modelled from the spec: a label is unbound (offset none, or the offset
of a pending referrer) or bound (offset of the target). The bound flag
distinguishes a recorded referrer from a bound offset. -/
structure BytecodeLabel where
  bound : Bool
  offset : Option Nat
  deriving DecidableEq

def BytecodeLabel.is_bound (l : BytecodeLabel) : Bool := l.bound

/-- Modelled from the spec: a label is a forward target when it is not yet
bound but a referrer offset has been recorded. -/
def BytecodeLabel.is_forward_target (l : BytecodeLabel) : Bool :=
  l.offset.isSome && !l.bound

def BytecodeLabel.set_referrer (l : BytecodeLabel) (offset : Nat) : BytecodeLabel :=
  { l with offset := some offset }

def BytecodeLabel.bind_to (l : BytecodeLabel) (offset : Nat) : BytecodeLabel :=
  { bound := true, offset := some offset }

/-- The stored offset of a label; only meaningful when the offset has been
set, which every use in the writer guards. -/
def BytecodeLabel.offsetValue (l : BytecodeLabel) : Nat := l.offset.getD 0

/-- Modelled from the spec: the static operand metadata consumed, not
owned, by the encoder: per opcode the operand kind list and the register
operand bitmap, per kind the width under a scale and the fixed register
span. -/
structure BytecodeMeta where
  operandTypes : Bytecode → List OperandType
  operandSize : OperandType → OperandScale → OperandSize
  registerBitmap : Bytecode → Nat
  numRegisters : OperandType → Nat

/-- The writer state: the byte buffer, the running register footprint, the
pending jump count, the recorded source positions and the constant pool
builder. -/
structure BytecodeArrayWriter where
  bytecodes : List Nat
  max_register_count : Int
  unbound_jumps : Int
  source_positions : List (Nat × Int × Bool)
  constant_array_builder : ConstantArrayBuilder
  deriving DecidableEq

/-- The writer as constructed: empty buffer, zero footprint, zero pending
jumps, empty pool. -/
def initialWriter : BytecodeArrayWriter :=
  { bytecodes := [], max_register_count := 0, unbound_jumps := 0,
    source_positions := [], constant_array_builder := { entries := [], reserved := 0 } }

/-- The bytes emitted for one operand value at one width (the switch on
operand_sizes in EmitBytecode; the kNone arm is unreachable). -/
def operandByteList (size : OperandSize) (value : Nat) : List Nat :=
  match size with
  | OperandSize.kNone => []
  | OperandSize.kByte => [value % 256]
  | OperandSize.kShort => WriteUnalignedUInt16 value
  | OperandSize.kQuad => WriteUnalignedUInt32 value

/-- UpdateSourcePositionTable from the source: when the node carries valid
source info, record it against the current byte offset. -/
def BytecodeArrayWriter.UpdateSourcePositionTable (node : BytecodeNode)
    (w : BytecodeArrayWriter) : BytecodeArrayWriter :=
  match node.source_info with
  | some info =>
      { w with source_positions :=
          w.source_positions ++ [(w.bytecodes.length, info.source_position, info.is_statement)] }
  | none => w

/-- The operand loop of EmitBytecode: for each operand in metadata order,
append its bytes at the width given by the metadata, and for each operand
whose bitmap bit is set update the register footprint with index + span
(span from the following register-count operand when present, else the
fixed per-kind count). -/
def BytecodeArrayWriter.emitOperands (meta : BytecodeMeta) (node : BytecodeNode)
    (bitmap : Nat) : Nat → List OperandType → BytecodeArrayWriter → BytecodeArrayWriter
  | _, [], w => w
  | i, t :: rest, w =>
      let size := meta.operandSize t node.operand_scale
      let value := node.operands.getD i 0
      let w1 := { w with bytecodes := w.bytecodes ++ operandByteList size value }
      let w2 :=
        if (bitmap >>> i) % 2 = 1 then
          let count : Int :=
            if rest.headD OperandType.kNone = OperandType.kRegCount then
              toInt32 (Int.ofNat (node.operands.getD (i + 1) 0))
            else Int.ofNat (meta.numRegisters t)
          let reg : Int := Register.FromOperand (toInt32 (Int.ofNat value))
          { w1 with max_register_count := max w1.max_register_count (reg + count) }
        else w1
      BytecodeArrayWriter.emitOperands meta node bitmap (i + 1) rest w2

/-- EmitBytecode from the source: emit the scale prefix byte when the
scale is wider than single, then the opcode byte, then the operands. -/
def BytecodeArrayWriter.EmitBytecode (meta : BytecodeMeta) (node : BytecodeNode)
    (w : BytecodeArrayWriter) : BytecodeArrayWriter :=
  let w1 :=
    if node.operand_scale = OperandScale.kSingle then w
    else { w with bytecodes :=
            w.bytecodes ++ [Bytecodes.ToByte (Bytecodes.OperandScaleToPrefixBytecode node.operand_scale)] }
  let w2 := { w1 with bytecodes := w1.bytecodes ++ [Bytecodes.ToByte node.bytecode] }
  BytecodeArrayWriter.emitOperands meta node (meta.registerBitmap node.bytecode) 0
    (meta.operandTypes node.bytecode) w2

/-- Write from the source (the debug assertion that the opcode is not a
jump is expressed as a hypothesis of the theorems about this path). -/
def BytecodeArrayWriter.Write (meta : BytecodeMeta) (node : BytecodeNode)
    (w : BytecodeArrayWriter) : BytecodeArrayWriter :=
  BytecodeArrayWriter.EmitBytecode meta node
    (BytecodeArrayWriter.UpdateSourcePositionTable node w)

/-- PatchJumpWith8BitOperand from the source: when the delta fits a signed
byte, discard the reservation and write the delta into the placeholder
byte; otherwise commit the reservation with the delta, rewrite the opcode
to the constant-operand variant, and write the pool index. -/
def BytecodeArrayWriter.PatchJumpWith8BitOperand (jump_location : Nat) (delta : Int)
    (w : BytecodeArrayWriter) : BytecodeArrayWriter :=
  let jump_bytecode := Bytecodes.FromByte (w.bytecodes.getD jump_location 0)
  let operand_location := jump_location + 1
  if Bytecodes.SizeForSignedOperand delta = OperandSize.kByte then
    { w with
      constant_array_builder := w.constant_array_builder.DiscardReservedEntry OperandSize.kByte,
      bytecodes := w.bytecodes.set operand_location ((delta % 256).toNat) }
  else
    let committed := w.constant_array_builder.CommitReservedEntry OperandSize.kByte delta
    { w with
      constant_array_builder := committed.2,
      bytecodes :=
        (w.bytecodes.set jump_location
            (Bytecodes.ToByte (GetJumpWithConstantOperand jump_bytecode))).set
          operand_location (committed.1 % 256) }

/-- PatchJumpWith16BitOperand from the source: the same policy at 16-bit
granularity. -/
def BytecodeArrayWriter.PatchJumpWith16BitOperand (jump_location : Nat) (delta : Int)
    (w : BytecodeArrayWriter) : BytecodeArrayWriter :=
  let jump_bytecode := Bytecodes.FromByte (w.bytecodes.getD jump_location 0)
  let operand_location := jump_location + 1
  if (Bytecodes.SizeForSignedOperand delta).value ≤ OperandSize.kShort.value then
    let operand_bytes := WriteUnalignedUInt16 ((delta % 65536).toNat)
    { w with
      constant_array_builder := w.constant_array_builder.DiscardReservedEntry OperandSize.kShort,
      bytecodes :=
        (w.bytecodes.set operand_location (operand_bytes.getD 0 0)).set
          (operand_location + 1) (operand_bytes.getD 1 0) }
  else
    let committed := w.constant_array_builder.CommitReservedEntry OperandSize.kShort delta
    let operand_bytes := WriteUnalignedUInt16 (committed.1 % 65536)
    { w with
      constant_array_builder := committed.2,
      bytecodes :=
        ((w.bytecodes.set jump_location
              (Bytecodes.ToByte (GetJumpWithConstantOperand jump_bytecode))).set
            operand_location (operand_bytes.getD 0 0)).set
          (operand_location + 1) (operand_bytes.getD 1 0) }

/-- PatchJumpWith32BitOperand from the source: discard the reservation and
write the delta, reinterpreted as an unsigned 32-bit value, into the four
placeholder bytes. -/
def BytecodeArrayWriter.PatchJumpWith32BitOperand (jump_location : Nat) (delta : Int)
    (w : BytecodeArrayWriter) : BytecodeArrayWriter :=
  let operand_bytes := WriteUnalignedUInt32 (toUInt32 delta)
  let operand_location := jump_location + 1
  { w with
    constant_array_builder := w.constant_array_builder.DiscardReservedEntry OperandSize.kQuad,
    bytecodes :=
      (((w.bytecodes.set operand_location (operand_bytes.getD 0 0)).set
            (operand_location + 1) (operand_bytes.getD 1 0)).set
          (operand_location + 2) (operand_bytes.getD 2 0)).set
        (operand_location + 3) (operand_bytes.getD 3 0) }

/-- PatchJump from the source: read the stored opcode; on a scale-prefix
marker take a 1-byte prefix offset, recover the scale and shorten the
delta by one; dispatch to the width-specific patcher; decrement the
pending jump count. -/
def BytecodeArrayWriter.PatchJump (jump_target jump_location : Nat)
    (w : BytecodeArrayWriter) : BytecodeArrayWriter :=
  let jump_bytecode := Bytecodes.FromByte (w.bytecodes.getD jump_location 0)
  let delta0 : Int := toInt32 ((jump_target : Int) - (jump_location : Int))
  let prefixed := Bytecodes.IsPrefixScalingBytecode jump_bytecode
  let delta := if prefixed then delta0 - 1 else delta0
  let prefix_offset := if prefixed then 1 else 0
  let operand_scale :=
    if prefixed then Bytecodes.PrefixBytecodeToOperandScale jump_bytecode
    else OperandScale.kSingle
  let patched :=
    match operand_scale with
    | OperandScale.kSingle =>
        BytecodeArrayWriter.PatchJumpWith8BitOperand jump_location delta w
    | OperandScale.kDouble =>
        BytecodeArrayWriter.PatchJumpWith16BitOperand (jump_location + prefix_offset) delta w
    | OperandScale.kQuadruple =>
        BytecodeArrayWriter.PatchJumpWith32BitOperand (jump_location + prefix_offset) delta w
  { patched with unbound_jumps := patched.unbound_jumps - 1 }

/-- EmitJump from the source. Bound label: compute the backward delta,
pick the minimal signed width for it, absorb the upcoming prefix byte when
the width is wider than a byte, rewrite the node and encode it normally.
Unbound label: count the pending jump, record the referrer, reserve a pool
slot and emit a zero placeholder at the scale of the reserved width. The
always-on checks that a bound target does not exceed the current offset
and that the offset fits a signed 32-bit value are modelled as the none
outcome. -/
def BytecodeArrayWriter.EmitJump (meta : BytecodeMeta) (node : BytecodeNode)
    (label : BytecodeLabel) (w : BytecodeArrayWriter) :
    Option (BytecodeArrayWriter × BytecodeLabel) :=
  let current_offset := w.bytecodes.length
  if label.is_bound then
    if label.offsetValue ≤ current_offset ∧ current_offset ≤ 2147483647 then
      let abs_delta := current_offset - label.offsetValue
      let delta0 : Int := -(toInt32 (Int.ofNat abs_delta))
      let operand_size := Bytecodes.SizeForSignedOperand delta0
      let delta := if OperandSize.kByte.value < operand_size.value then delta0 - 1 else delta0
      some (BytecodeArrayWriter.EmitBytecode meta
              (node.set_bytecode node.bytecode (SignedOperand delta operand_size)
                (Bytecodes.OperandSizesToScale operand_size)) w,
            label)
    else none
  else
    let w1 := { w with unbound_jumps := w.unbound_jumps + 1 }
    let label1 := label.set_referrer current_offset
    let created := w1.constant_array_builder.CreateReservedEntry
    let w2 := { w1 with constant_array_builder := created.2 }
    let operand_scale := Bytecodes.OperandSizesToScale created.1
    some (BytecodeArrayWriter.EmitBytecode meta
            (node.set_bytecode node.bytecode 0 operand_scale) w2,
          label1)

/-- WriteJump from the source (the debug assertion that the opcode is a
jump is expressed as a hypothesis where a theorem needs it). -/
def BytecodeArrayWriter.WriteJump (meta : BytecodeMeta) (node : BytecodeNode)
    (label : BytecodeLabel) (w : BytecodeArrayWriter) :
    Option (BytecodeArrayWriter × BytecodeLabel) :=
  BytecodeArrayWriter.EmitJump meta node label
    (BytecodeArrayWriter.UpdateSourcePositionTable node w)

/-- BindLabel from the source: when the label is a forward target, patch
its referrer against the current offset; then bind the label to the
current offset. -/
def BytecodeArrayWriter.BindLabel (label : BytecodeLabel)
    (w : BytecodeArrayWriter) : BytecodeArrayWriter × BytecodeLabel :=
  let current_offset := w.bytecodes.length
  let w1 :=
    if label.is_forward_target then
      BytecodeArrayWriter.PatchJump current_offset label.offsetValue w
    else w
  (w1, label.bind_to current_offset)

/-- The alias form of BindLabel from the source: patch the referrer of the
unbound label against the offset of the already bound target, then bind to
that offset. -/
def BytecodeArrayWriter.BindLabelAlias (target : BytecodeLabel) (label : BytecodeLabel)
    (w : BytecodeArrayWriter) : BytecodeArrayWriter × BytecodeLabel :=
  let w1 :=
    if label.is_forward_target then
      BytecodeArrayWriter.PatchJump target.offsetValue label.offsetValue w
    else w
  (w1, label.bind_to target.offsetValue)

/-- Modelled from the spec: the machine pointer width in bytes. -/
def kPointerSize : Int := 8

/-- The finished artifact: byte buffer, frame size, parameter count,
constant pool, handler table and source position table. -/
structure BytecodeArrayArtifact where
  bytecode_size : Nat
  bytecodes : List Nat
  frame_size : Int
  parameter_count : Int
  constant_pool : List Int
  handler_table : Nat
  source_position_table : List (Nat × Int × Bool)
  deriving DecidableEq

/-- ToBytecodeArray from the source. The assertion that no unresolved
forward jump remains is the guard of finalization (fatal when violated, so
no artifact is produced); the frame size is the larger of the fixed local
frame and the register footprint frame, each in pointer units. -/
def BytecodeArrayWriter.ToBytecodeArray (fixed_register_count parameter_count : Int)
    (handler_table : Nat) (w : BytecodeArrayWriter) : Option BytecodeArrayArtifact :=
  if w.unbound_jumps = 0 then
    some
      { bytecode_size := w.bytecodes.length,
        bytecodes := w.bytecodes,
        frame_size :=
          max (fixed_register_count * kPointerSize) (w.max_register_count * kPointerSize),
        parameter_count := parameter_count,
        constant_pool := w.constant_array_builder.ToFixedArray,
        handler_table := handler_table,
        source_position_table := w.source_positions }
  else none

/-! Specification-side descriptions of the encoder output, stated
independently of the operand loop, and the lemmas connecting them to the
code path. -/

/-- The scale prefix bytes of a node: empty at single scale, otherwise the
byte of the reserved prefix opcode. -/
def scalePrefixList (scale : OperandScale) : List Nat :=
  if scale = OperandScale.kSingle then []
  else [Bytecodes.ToByte (Bytecodes.OperandScaleToPrefixBytecode scale)]

/-- The operand bytes of a node from operand position i on: each operand
value in metadata order at the width the metadata dictates. -/
def operandEncodingFrom (meta : BytecodeMeta) (node : BytecodeNode) :
    Nat → List OperandType → List Nat
  | _, [] => []
  | i, t :: rest =>
      operandByteList (meta.operandSize t node.operand_scale) (node.operands.getD i 0)
        ++ operandEncodingFrom meta node (i + 1) rest

/-- The full encoding of one node: optional scale prefix, opcode byte,
then the operand bytes. -/
def nodeEncoding (meta : BytecodeMeta) (node : BytecodeNode) : List Nat :=
  scalePrefixList node.operand_scale ++ [Bytecodes.ToByte node.bytecode]
    ++ operandEncodingFrom meta node 0 (meta.operandTypes node.bytecode)

/-- The register footprint contributions of a node from operand position i
on: index plus span for every operand whose bitmap bit is set, the span
taken from the following register-count operand when present and from the
fixed per-kind count otherwise. -/
def registerEntriesFrom (meta : BytecodeMeta) (node : BytecodeNode) (bitmap : Nat) :
    Nat → List OperandType → List Int
  | _, [] => []
  | i, t :: rest =>
      (if (bitmap >>> i) % 2 = 1 then
        [Register.FromOperand (toInt32 (Int.ofNat (node.operands.getD i 0)))
          + (if rest.headD OperandType.kNone = OperandType.kRegCount then
               toInt32 (Int.ofNat (node.operands.getD (i + 1) 0))
             else Int.ofNat (meta.numRegisters t))]
       else [])
        ++ registerEntriesFrom meta node bitmap (i + 1) rest

/-- All register footprint contributions of a node. -/
def nodeRegisterEntries (meta : BytecodeMeta) (node : BytecodeNode) : List Int :=
  registerEntriesFrom meta node (meta.registerBitmap node.bytecode) 0
    (meta.operandTypes node.bytecode)

/-- The source position entries recorded for a node at a given offset. -/
def sourceEntryList (node : BytecodeNode) (offset : Nat) : List (Nat × Int × Bool) :=
  match node.source_info with
  | some info => [(offset, info.source_position, info.is_statement)]
  | none => []

/-- A value fits a signed operand width when it lies in the two-complement
range of that width. -/
def fitsSigned (value : Int) : OperandSize → Prop
  | OperandSize.kNone => False
  | OperandSize.kByte => -128 ≤ value ∧ value ≤ 127
  | OperandSize.kShort => -32768 ≤ value ∧ value ≤ 32767
  | OperandSize.kQuad => -2147483648 ≤ value ∧ value ≤ 2147483647

instance (value : Int) (size : OperandSize) : Decidable (fitsSigned value size) := by
  cases size <;> dsimp only [fitsSigned] <;> infer_instance

/-- A sequence of plain writes, in program order. -/
def writeSeq (meta : BytecodeMeta) (nodes : List BytecodeNode)
    (w : BytecodeArrayWriter) : BytecodeArrayWriter :=
  nodes.foldl (fun acc node => BytecodeArrayWriter.Write meta node acc) w

/-- The register footprint contributions of a whole write sequence, in
program order. -/
def allRegisterEntries (meta : BytecodeMeta) : List BytecodeNode → List Int
  | [] => []
  | node :: nodes => nodeRegisterEntries meta node ++ allRegisterEntries meta nodes

/-- One caller-issued operation against the writer: a plain write, a jump
write against a label, binding a label to the current offset, or binding a
label as an alias of an already bound label. Labels are named by index
into the label store of the system state. -/
inductive WriterOp where
  | write (node : BytecodeNode)
  | writeJump (node : BytecodeNode) (labelId : Nat)
  | bindLabel (labelId : Nat)
  | bindAlias (targetId : Nat) (labelId : Nat)

/-- A fresh label: unbound, no referrer. -/
def freshLabel : BytecodeLabel := { bound := false, offset := none }

/-- The writer together with the caller-owned labels it has been handed. -/
structure WriterSystem where
  writer : BytecodeArrayWriter
  labels : List BytecodeLabel

/-- Look up a label by index (indices outside the store behave as fresh
labels and are never forward targets). -/
def WriterSystem.getLabel (s : WriterSystem) (i : Nat) : BytecodeLabel :=
  s.labels.getD i freshLabel

/-- Run one operation. A jump write can fail on the always-on checks of
the backward path; every other operation is total. -/
def stepOp (meta : BytecodeMeta) (s : WriterSystem) : WriterOp → Option WriterSystem
  | WriterOp.write node =>
      some { s with writer := BytecodeArrayWriter.Write meta node s.writer }
  | WriterOp.writeJump node i =>
      match BytecodeArrayWriter.WriteJump meta node (s.getLabel i) s.writer with
      | some r => some { writer := r.1, labels := s.labels.set i r.2 }
      | none => none
  | WriterOp.bindLabel i =>
      let r := BytecodeArrayWriter.BindLabel (s.getLabel i) s.writer
      some { writer := r.1, labels := s.labels.set i r.2 }
  | WriterOp.bindAlias t i =>
      let r := BytecodeArrayWriter.BindLabelAlias (s.getLabel t) (s.getLabel i) s.writer
      some { writer := r.1, labels := s.labels.set i r.2 }

/-- Run a list of operations in order, stopping at a fatal check. -/
def runOps (meta : BytecodeMeta) : List WriterOp → WriterSystem → Option WriterSystem
  | [], s => some s
  | op :: ops, s =>
      match stepOp meta s op with
      | some s1 => runOps meta ops s1
      | none => none

/-- The initial system: a fresh writer and n fresh labels. -/
def initialSystem (n : Nat) : WriterSystem :=
  { writer := initialWriter, labels := List.replicate n freshLabel }

/-- The number of labels currently recorded as forward targets. -/
def countFwd : List BytecodeLabel → Nat
  | [] => 0
  | l :: rest => (if l.is_forward_target then 1 else 0) + countFwd rest

/-- A small concrete operand metadata table used by the witnesses:
immediate jumps take one scalable immediate, constant jumps one scalable
pool index, kLdar and kStar one register, kCall a register, a maybe
register with a following register count, and a pool index. -/
def testMeta : BytecodeMeta :=
  { operandTypes := fun b =>
      match b with
      | Bytecode.kJump => [OperandType.kImm]
      | Bytecode.kJumpIfTrue => [OperandType.kImm]
      | Bytecode.kJumpIfFalse => [OperandType.kImm]
      | Bytecode.kJumpIfToBooleanTrue => [OperandType.kImm]
      | Bytecode.kJumpIfToBooleanFalse => [OperandType.kImm]
      | Bytecode.kJumpIfNotHole => [OperandType.kImm]
      | Bytecode.kJumpIfNull => [OperandType.kImm]
      | Bytecode.kJumpIfUndefined => [OperandType.kImm]
      | Bytecode.kJumpConstant => [OperandType.kIdx]
      | Bytecode.kJumpIfTrueConstant => [OperandType.kIdx]
      | Bytecode.kJumpIfFalseConstant => [OperandType.kIdx]
      | Bytecode.kJumpIfToBooleanTrueConstant => [OperandType.kIdx]
      | Bytecode.kJumpIfToBooleanFalseConstant => [OperandType.kIdx]
      | Bytecode.kJumpIfNotHoleConstant => [OperandType.kIdx]
      | Bytecode.kJumpIfNullConstant => [OperandType.kIdx]
      | Bytecode.kJumpIfUndefinedConstant => [OperandType.kIdx]
      | Bytecode.kLdar => [OperandType.kReg]
      | Bytecode.kStar => [OperandType.kReg]
      | Bytecode.kCall =>
          [OperandType.kReg, OperandType.kMaybeReg, OperandType.kRegCount, OperandType.kIdx]
      | _ => [],
    operandSize := fun t scale =>
      match t with
      | OperandType.kNone => OperandSize.kNone
      | OperandType.kFlag8 => OperandSize.kByte
      | _ => scalableOperandSize scale,
    registerBitmap := fun b =>
      match b with
      | Bytecode.kLdar => 1
      | Bytecode.kStar => 1
      | Bytecode.kCall => 3
      | _ => 0,
    numRegisters := fun t =>
      match t with
      | OperandType.kReg => 1
      | OperandType.kRegOut => 1
      | OperandType.kRegPair => 2
      | OperandType.kRegOutPair => 2
      | OperandType.kRegOutTriple => 3
      | _ => 0 }

/-- Witness fixture: a register-using node, kLdar r5 at single scale. -/
def ldarNode : BytecodeNode :=
  { bytecode := Bytecode.kLdar, operands := [5], operand_scale := OperandScale.kSingle,
    source_info := none }

/-- Witness fixture: a jump node with the mandatory zero placeholder
operand. -/
def jumpNode : BytecodeNode :=
  { bytecode := Bytecode.kJump, operands := [0], operand_scale := OperandScale.kSingle,
    source_info := none }

/-- Witness fixture: a writer holding five already emitted bytes. -/
def writerFive : BytecodeArrayWriter :=
  { bytecodes := [19, 19, 19, 19, 19], max_register_count := 0, unbound_jumps := 0,
    source_positions := [], constant_array_builder := { entries := [], reserved := 0 } }

/-- Witness fixture: a writer whose buffer holds an emitted forward jump
at offset 0 (opcode byte and one zero placeholder) with one outstanding
pool reservation and one pending jump. -/
def writerPendingJump : BytecodeArrayWriter :=
  { bytecodes := [3, 0], max_register_count := 0, unbound_jumps := 1,
    source_positions := [], constant_array_builder := { entries := [], reserved := 1 } }

/-- Witness fixture: a writer whose buffer holds a kWide-prefixed forward
jump at offset 0 (prefix byte, opcode byte, two zero placeholder bytes)
with one outstanding pool reservation and one pending jump. -/
def writerWideJump : BytecodeArrayWriter :=
  { bytecodes := [1, 3, 0, 0], max_register_count := 0, unbound_jumps := 1,
    source_positions := [], constant_array_builder := { entries := [], reserved := 1 } }

/-- Counterexample fixture: a writer whose buffer holds a kExtraWide
prefixed forward jump at offset 0 (prefix byte, opcode byte, four zero
placeholder bytes) with one outstanding pool reservation and one pending
jump. -/
def writerExtraWideJump : BytecodeArrayWriter :=
  { bytecodes := [2, 3, 0, 0, 0, 0], max_register_count := 0, unbound_jumps := 1,
    source_positions := [], constant_array_builder := { entries := [], reserved := 1 } }

/-- Witness fixture: a writer with 32768 emitted bytes, placing the
current offset exactly past the reach of a signed 16-bit backward delta. -/
def writerFar : BytecodeArrayWriter :=
  { bytecodes := List.replicate 32768 19, max_register_count := 0, unbound_jumps := 0,
    source_positions := [], constant_array_builder := { entries := [], reserved := 0 } }

theorem max_swap_arg (a b c : Int) : max (max a b) c = max (max a c) b := by
  rw [max_assoc, max_comm b c, ← max_assoc]

theorem foldl_max_init_le (l : List Int) : ∀ a : Int, a ≤ List.foldl max a l := by
  induction l with
  | nil => intro a; simp
  | cons x xs ih => intro a; exact le_trans (le_max_left a x) (ih (max a x))

theorem foldl_max_mono (l : List Int) :
    ∀ a b : Int, a ≤ b → List.foldl max a l ≤ List.foldl max b l := by
  induction l with
  | nil => intro a b h; simpa using h
  | cons x xs ih => intro a b h; exact ih _ _ (max_le_max_right x h)

/-- The operand loop appends exactly the specification-side operand bytes
and folds the specification-side register entries into the footprint; no
other writer field changes. -/
theorem emitOperands_spec (meta : BytecodeMeta) (node : BytecodeNode) (bitmap : Nat) :
    ∀ (rest : List OperandType) (i : Nat) (w : BytecodeArrayWriter),
      BytecodeArrayWriter.emitOperands meta node bitmap i rest w =
        { w with
          bytecodes := w.bytecodes ++ operandEncodingFrom meta node i rest,
          max_register_count :=
            List.foldl max w.max_register_count (registerEntriesFrom meta node bitmap i rest) } := by
  intro rest
  induction rest with
  | nil =>
      intro i w
      simp [BytecodeArrayWriter.emitOperands, operandEncodingFrom, registerEntriesFrom]
  | cons t rest ih =>
      intro i w
      rw [BytecodeArrayWriter.emitOperands]
      dsimp only
      split
      next hbit =>
        rw [ih]
        simp [operandEncodingFrom, registerEntriesFrom, hbit, List.append_assoc]
      next hbit =>
        rw [ih]
        simp [operandEncodingFrom, registerEntriesFrom, hbit, List.append_assoc]

/-- EmitBytecode appends exactly the node encoding and folds the register
entries of the node into the footprint; no other writer field changes. -/
theorem EmitBytecode_spec (meta : BytecodeMeta) (node : BytecodeNode)
    (w : BytecodeArrayWriter) :
    BytecodeArrayWriter.EmitBytecode meta node w =
      { w with
        bytecodes := w.bytecodes ++ nodeEncoding meta node,
        max_register_count :=
          List.foldl max w.max_register_count (nodeRegisterEntries meta node) } := by
  rw [BytecodeArrayWriter.EmitBytecode]
  split
  next hsc =>
    rw [emitOperands_spec]
    simp [nodeEncoding, nodeRegisterEntries, scalePrefixList, hsc, List.append_assoc]
  next hsc =>
    rw [emitOperands_spec]
    simp [nodeEncoding, nodeRegisterEntries, scalePrefixList, hsc, List.append_assoc]

/-- UpdateSourcePositionTable only appends to the source position list. -/
theorem UpdateSourcePositionTable_spec (node : BytecodeNode) (w : BytecodeArrayWriter) :
    BytecodeArrayWriter.UpdateSourcePositionTable node w =
      { w with source_positions :=
          w.source_positions ++ sourceEntryList node w.bytecodes.length } := by
  rw [BytecodeArrayWriter.UpdateSourcePositionTable, sourceEntryList]
  cases node.source_info <;> simp

/-- Write appends the node encoding and the source entries and folds the
register entries of the node into the footprint; nothing else changes. -/
theorem Write_spec (meta : BytecodeMeta) (node : BytecodeNode) (w : BytecodeArrayWriter) :
    BytecodeArrayWriter.Write meta node w =
      { w with
        bytecodes := w.bytecodes ++ nodeEncoding meta node,
        max_register_count :=
          List.foldl max w.max_register_count (nodeRegisterEntries meta node),
        source_positions :=
          w.source_positions ++ sourceEntryList node w.bytecodes.length } := by
  rw [BytecodeArrayWriter.Write, UpdateSourcePositionTable_spec, EmitBytecode_spec]

theorem toInt32_eq_self (n : Int) (h1 : -2147483648 ≤ n) (h2 : n ≤ 2147483647) :
    toInt32 n = n := by
  unfold toInt32
  dsimp only
  split <;> omega

/-- SignedOperand is reduction of the displacement modulo two to the
power of eight times the width. -/
theorem SignedOperand_eq_mod (value : Int) (size : OperandSize)
    (h : size ≠ OperandSize.kNone) :
    SignedOperand value size = (value % (2 ^ (8 * size.value))).toNat := by
  cases size with
  | kNone => exact absurd rfl h
  | kByte => simp [SignedOperand, OperandSize.value]
  | kShort => norm_num [SignedOperand, OperandSize.value]
  | kQuad => norm_num [SignedOperand, OperandSize.value, toUInt32]

theorem SizeForSignedOperand_ne_none (v : Int) :
    Bytecodes.SizeForSignedOperand v ≠ OperandSize.kNone := by
  unfold Bytecodes.SizeForSignedOperand
  split
  · simp
  · split <;> simp

theorem SizeForUnsignedOperand_ne_none (v : Nat) :
    Bytecodes.SizeForUnsignedOperand v ≠ OperandSize.kNone := by
  unfold Bytecodes.SizeForUnsignedOperand
  split
  · simp
  · split <;> simp

theorem SizeForSignedOperand_fits (v : Int) (h1 : -2147483648 ≤ v) (h2 : v ≤ 2147483647) :
    fitsSigned v (Bytecodes.SizeForSignedOperand v) := by
  unfold Bytecodes.SizeForSignedOperand
  split
  next h => dsimp only [fitsSigned]; omega
  next h =>
    split
    next h3 => dsimp only [fitsSigned]; omega
    next h3 => dsimp only [fitsSigned]; omega

theorem SizeForSignedOperand_minimal (v : Int) (s : OperandSize) (hs : fitsSigned v s) :
    (Bytecodes.SizeForSignedOperand v).value ≤ s.value := by
  cases s with
  | kNone => exact hs.elim
  | kByte =>
      dsimp only [fitsSigned] at hs
      unfold Bytecodes.SizeForSignedOperand
      rw [if_pos hs]
  | kShort =>
      dsimp only [fitsSigned] at hs
      unfold Bytecodes.SizeForSignedOperand
      by_cases h : -128 ≤ v ∧ v ≤ 127
      · rw [if_pos h]; simp [OperandSize.value]
      · rw [if_neg h, if_pos hs]
  | kQuad =>
      unfold Bytecodes.SizeForSignedOperand
      by_cases h : -128 ≤ v ∧ v ≤ 127
      · rw [if_pos h]; simp [OperandSize.value]
      · rw [if_neg h]
        by_cases h3 : -32768 ≤ v ∧ v ≤ 32767
        · rw [if_pos h3]; simp [OperandSize.value]
        · rw [if_neg h3]

theorem UpdateSourcePositionTable_bytecodes (node : BytecodeNode) (w : BytecodeArrayWriter) :
    (BytecodeArrayWriter.UpdateSourcePositionTable node w).bytecodes = w.bytecodes := by
  rw [UpdateSourcePositionTable_spec]

theorem UpdateSourcePositionTable_unbound_jumps (node : BytecodeNode) (w : BytecodeArrayWriter) :
    (BytecodeArrayWriter.UpdateSourcePositionTable node w).unbound_jumps = w.unbound_jumps := by
  rw [UpdateSourcePositionTable_spec]

theorem EmitBytecode_unbound_jumps (meta : BytecodeMeta) (node : BytecodeNode)
    (w : BytecodeArrayWriter) :
    (BytecodeArrayWriter.EmitBytecode meta node w).unbound_jumps = w.unbound_jumps := by
  rw [EmitBytecode_spec]

theorem Write_unbound_jumps (meta : BytecodeMeta) (node : BytecodeNode)
    (w : BytecodeArrayWriter) :
    (BytecodeArrayWriter.Write meta node w).unbound_jumps = w.unbound_jumps := by
  rw [Write_spec]

theorem PatchJumpWith8BitOperand_unbound_jumps (jump_location : Nat) (delta : Int)
    (w : BytecodeArrayWriter) :
    (BytecodeArrayWriter.PatchJumpWith8BitOperand jump_location delta w).unbound_jumps
      = w.unbound_jumps := by
  unfold BytecodeArrayWriter.PatchJumpWith8BitOperand
  split <;> rfl

theorem PatchJumpWith16BitOperand_unbound_jumps (jump_location : Nat) (delta : Int)
    (w : BytecodeArrayWriter) :
    (BytecodeArrayWriter.PatchJumpWith16BitOperand jump_location delta w).unbound_jumps
      = w.unbound_jumps := by
  unfold BytecodeArrayWriter.PatchJumpWith16BitOperand
  split <;> rfl

theorem PatchJumpWith32BitOperand_unbound_jumps (jump_location : Nat) (delta : Int)
    (w : BytecodeArrayWriter) :
    (BytecodeArrayWriter.PatchJumpWith32BitOperand jump_location delta w).unbound_jumps
      = w.unbound_jumps := by
  rfl

/-- Every patch decrements the pending jump count by exactly one. -/
theorem PatchJump_unbound_jumps (jump_target jump_location : Nat)
    (w : BytecodeArrayWriter) :
    (BytecodeArrayWriter.PatchJump jump_target jump_location w).unbound_jumps
      = w.unbound_jumps - 1 := by
  unfold BytecodeArrayWriter.PatchJump
  dsimp only
  split
  · rw [PatchJumpWith8BitOperand_unbound_jumps]
  · rw [PatchJumpWith16BitOperand_unbound_jumps]
  · rw [PatchJumpWith32BitOperand_unbound_jumps]

/-- The backward branch of EmitJump, characterized: the displacement is
the bound offset minus the current offset, the width is chosen from the
unadjusted displacement, the prefix byte is absorbed exactly when the
width is wider than a byte, and the rewritten node goes through the normal
encoder. -/
theorem EmitJump_bound_eq (meta : BytecodeMeta) (node : BytecodeNode) (T : Nat)
    (w : BytecodeArrayWriter) (h1 : T ≤ w.bytecodes.length)
    (h2 : w.bytecodes.length ≤ 2147483647) :
    BytecodeArrayWriter.EmitJump meta node { bound := true, offset := some T } w =
      some
        (BytecodeArrayWriter.EmitBytecode meta
          (node.set_bytecode node.bytecode
            (SignedOperand
              (if OperandSize.kByte.value <
                    (Bytecodes.SizeForSignedOperand ((T : Int) - (w.bytecodes.length : Int))).value
               then (T : Int) - (w.bytecodes.length : Int) - 1
               else (T : Int) - (w.bytecodes.length : Int))
              (Bytecodes.SizeForSignedOperand ((T : Int) - (w.bytecodes.length : Int))))
            (Bytecodes.OperandSizesToScale
              (Bytecodes.SizeForSignedOperand ((T : Int) - (w.bytecodes.length : Int))))) w,
        { bound := true, offset := some T }) := by
  have ht : -(toInt32 (Int.ofNat (w.bytecodes.length - ({ bound := true, offset := some T } : BytecodeLabel).offsetValue)))
      = (T : Int) - (w.bytecodes.length : Int) := by
    have hofs : ({ bound := true, offset := some T } : BytecodeLabel).offsetValue = T := rfl
    rw [hofs]
    have habs : Int.ofNat (w.bytecodes.length - T) = (w.bytecodes.length : Int) - (T : Int) := by
      rw [Int.ofNat_eq_coe]
      omega
    rw [habs, toInt32_eq_self _ (by omega) (by omega)]
    ring
  unfold BytecodeArrayWriter.EmitJump
  rw [if_pos (show ({ bound := true, offset := some T } : BytecodeLabel).is_bound = true from rfl)]
  rw [if_pos (show ({ bound := true, offset := some T } : BytecodeLabel).offsetValue ≤ w.bytecodes.length ∧ w.bytecodes.length ≤ 2147483647 from ⟨h1, h2⟩)]
  dsimp only
  rw [ht]

/-- C1, as stated, is false on the code: patching at the 4-byte operand
width at a concrete input discards the constant pool reservation (the pool
stays empty, so no pool index exists, and the outstanding reservation is
released) and writes the resolved delta, 8, into the four placeholder
bytes, not a pool index. The input is a kExtraWide prefixed jump at offset
0 patched against target 9. -/
theorem C1_counterexample :
    (BytecodeArrayWriter.PatchJump 9 0 writerExtraWideJump).constant_array_builder.entries = []
  ∧ (BytecodeArrayWriter.PatchJump 9 0 writerExtraWideJump).constant_array_builder.reserved = 0
  ∧ (BytecodeArrayWriter.PatchJump 9 0 writerExtraWideJump).bytecodes
      = [Bytecodes.ToByte Bytecode.kExtraWide, Bytecodes.ToByte Bytecode.kJump, 8, 0, 0, 0] := by
  refine ⟨rfl, rfl, ?_⟩
  rfl

/-- C1 amended: for every forward jump patched at the 4-byte operand
width, the patch procedure always discards the constant pool reservation
(it never commits: the committed entries are unchanged and one outstanding
reservation is released) and writes the resolved delta, reduced to an
unsigned 32-bit value, as 4 little-endian bytes into the operand
placeholder starting one byte past the opcode position it is given, which
PatchJump passes as jump_location + prefix_offset. The buffer length never
changes. -/
theorem C1_patch_32bit_amended (w : BytecodeArrayWriter) (jump_location : Nat) (delta : Int) :
    (BytecodeArrayWriter.PatchJumpWith32BitOperand jump_location delta w).constant_array_builder.entries
        = w.constant_array_builder.entries
  ∧ (BytecodeArrayWriter.PatchJumpWith32BitOperand jump_location delta w).constant_array_builder.reserved
        = w.constant_array_builder.reserved - 1
  ∧ (BytecodeArrayWriter.PatchJumpWith32BitOperand jump_location delta w).bytecodes
        = (((w.bytecodes.set (jump_location + 1) (toUInt32 delta % 256)).set
              (jump_location + 2) (toUInt32 delta / 256 % 256)).set
            (jump_location + 3) (toUInt32 delta / 65536 % 256)).set
          (jump_location + 4) (toUInt32 delta / 16777216 % 256)
  ∧ (BytecodeArrayWriter.PatchJumpWith32BitOperand jump_location delta w).bytecodes.length
        = w.bytecodes.length := by
  refine ⟨rfl, rfl, ?_, ?_⟩
  · simp [BytecodeArrayWriter.PatchJumpWith32BitOperand, WriteUnalignedUInt32,
      ConstantArrayBuilder.DiscardReservedEntry]
  · simp [BytecodeArrayWriter.PatchJumpWith32BitOperand]

/-- C2: patching a forward jump at the 1-byte operand width. When the
resolved delta fits a signed 8-bit value, the pool reservation is
discarded, the delta (as its two-complement byte) is written into the
single placeholder byte and the opcode byte is unchanged. Otherwise the
reservation is committed with value delta, the returned pool index fits in
8 bits (the hypothesis on the pool mirrors the guarantee of the external
Constant Pool Builder, asserted by the code), the opcode byte is rewritten
to the constant-operand variant and the pool index is written into the
placeholder byte. -/
theorem C2_patch_8bit (w : BytecodeArrayWriter) (jump_location : Nat) (delta : Int)
    (jb : Bytecode)
    (hjb : Bytecodes.FromByte (w.bytecodes.getD jump_location 0) = jb)
    (himm : Bytecodes.IsJumpImmediate jb = true)
    (hpool : w.constant_array_builder.entries.length ≤ 255) :
    (Bytecodes.SizeForSignedOperand delta = OperandSize.kByte →
        BytecodeArrayWriter.PatchJumpWith8BitOperand jump_location delta w
          = { w with
              constant_array_builder :=
                { entries := w.constant_array_builder.entries,
                  reserved := w.constant_array_builder.reserved - 1 },
              bytecodes := w.bytecodes.set (jump_location + 1) ((delta % 256).toNat) }
      ∧ (w.bytecodes.set (jump_location + 1) ((delta % 256).toNat)).getD jump_location 0
          = w.bytecodes.getD jump_location 0)
  ∧ (Bytecodes.SizeForSignedOperand delta ≠ OperandSize.kByte →
        BytecodeArrayWriter.PatchJumpWith8BitOperand jump_location delta w
          = { w with
              constant_array_builder :=
                { entries := w.constant_array_builder.entries ++ [delta],
                  reserved := w.constant_array_builder.reserved - 1 },
              bytecodes :=
                (w.bytecodes.set jump_location
                    (Bytecodes.ToByte (GetJumpWithConstantOperand jb))).set
                  (jump_location + 1) w.constant_array_builder.entries.length }
      ∧ Bytecodes.SizeForUnsignedOperand w.constant_array_builder.entries.length
          = OperandSize.kByte
      ∧ Bytecodes.IsJumpConstant (GetJumpWithConstantOperand jb) = true) := by
  constructor
  · intro hfit
    constructor
    · unfold BytecodeArrayWriter.PatchJumpWith8BitOperand
      rw [if_pos hfit]
      rfl
    · unfold List.getD
      rw [List.get?_set_ne]
      omega
  · intro hnofit
    refine ⟨?_, ?_, ?_⟩
    · unfold BytecodeArrayWriter.PatchJumpWith8BitOperand
      rw [if_neg hnofit, hjb]
      have hmod : w.constant_array_builder.entries.length % 256
          = w.constant_array_builder.entries.length := Nat.mod_eq_of_lt (by omega)
      dsimp only [ConstantArrayBuilder.CommitReservedEntry]
      rw [hmod]
    · unfold Bytecodes.SizeForUnsignedOperand
      rw [if_pos hpool]
    · cases jb <;> first
        | rfl
        | exact absurd himm (by decide)

/-- C2 witness: on a concrete writer holding a forward jump at offset 0
with an empty pool and one reservation, a delta of 300 does not fit a
signed byte, so the commit branch applies: the pool gains the entry 300 at
index 0 and the opcode is rewritten to the constant variant. -/
theorem C2_patch_8bit_witness :
    BytecodeArrayWriter.PatchJumpWith8BitOperand 0 300 writerPendingJump
      = { writerPendingJump with
          constant_array_builder := { entries := [300], reserved := 0 },
          bytecodes :=
            (writerPendingJump.bytecodes.set 0
                (Bytecodes.ToByte (GetJumpWithConstantOperand Bytecode.kJump))).set 1
              writerPendingJump.constant_array_builder.entries.length } := by
  have h := (C2_patch_8bit writerPendingJump 0 300 Bytecode.kJump rfl rfl (by decide)).2
      (by decide)
  exact h.1

/-- C5: dispatch of patchJump. When the byte stored at jump_location is
not a scale-prefix marker, the delta is jump_target minus jump_location,
the prefix offset is 0, the scale is single, and the 8-bit patcher runs on
the operand byte after the opcode; the pending jump count drops by one.
When the stored byte is the kWide marker, the scale recovered from the
marker is double, the delta is jump_target minus jump_location minus 1,
and the 16-bit patcher runs at jump_location + 1 (prefix offset 1), so the
operand bytes follow the real opcode; the kExtraWide marker behaves the
same at quadruple scale with the 32-bit patcher. The bounds hypotheses
mirror the always-on check that buffer offsets stay below 2^31, which
makes the int cast of the difference exact. -/
theorem C5_patch_dispatch (w : BytecodeArrayWriter) (jump_target jump_location : Nat)
    (ht : jump_target ≤ 2147483647) (hl : jump_location ≤ 2147483647)
    (b : Bytecode) (hb : Bytecodes.FromByte (w.bytecodes.getD jump_location 0) = b) :
    (Bytecodes.IsPrefixScalingBytecode b = false →
        BytecodeArrayWriter.PatchJump jump_target jump_location w
          = (fun r => { r with unbound_jumps := r.unbound_jumps - 1 })
              (BytecodeArrayWriter.PatchJumpWith8BitOperand jump_location
                ((jump_target : Int) - (jump_location : Int)) w))
  ∧ (b = Bytecode.kWide →
        Bytecodes.PrefixBytecodeToOperandScale b = OperandScale.kDouble
      ∧ BytecodeArrayWriter.PatchJump jump_target jump_location w
          = (fun r => { r with unbound_jumps := r.unbound_jumps - 1 })
              (BytecodeArrayWriter.PatchJumpWith16BitOperand (jump_location + 1)
                ((jump_target : Int) - (jump_location : Int) - 1) w))
  ∧ (b = Bytecode.kExtraWide →
        Bytecodes.PrefixBytecodeToOperandScale b = OperandScale.kQuadruple
      ∧ BytecodeArrayWriter.PatchJump jump_target jump_location w
          = (fun r => { r with unbound_jumps := r.unbound_jumps - 1 })
              (BytecodeArrayWriter.PatchJumpWith32BitOperand (jump_location + 1)
                ((jump_target : Int) - (jump_location : Int) - 1) w)) := by
  have hdelta : toInt32 ((jump_target : Int) - (jump_location : Int))
      = (jump_target : Int) - (jump_location : Int) :=
    toInt32_eq_self _ (by omega) (by omega)
  refine ⟨?_, ?_, ?_⟩
  · intro hnp
    unfold BytecodeArrayWriter.PatchJump
    rw [hb]
    dsimp only
    rw [hnp, hdelta]
    rfl
  · intro hkw
    subst hkw
    refine ⟨rfl, ?_⟩
    unfold BytecodeArrayWriter.PatchJump
    rw [hb]
    dsimp only
    rw [hdelta]
    rfl
  · intro hkx
    subst hkx
    refine ⟨rfl, ?_⟩
    unfold BytecodeArrayWriter.PatchJump
    rw [hb]
    dsimp only
    rw [hdelta]
    rfl

/-- C5 witness: on a concrete buffer holding a kWide-prefixed jump at
offset 0 and bind target 10, the patch dispatches to the 16-bit patcher at
location 1 with delta 9. -/
theorem C5_patch_dispatch_witness :
    BytecodeArrayWriter.PatchJump 10 0 writerWideJump
      = (fun r => { r with unbound_jumps := r.unbound_jumps - 1 })
          (BytecodeArrayWriter.PatchJumpWith16BitOperand 1 9 writerWideJump) := by
  have h := ((C5_patch_dispatch writerWideJump 10 0 (by decide) (by decide)
      Bytecode.kWide rfl).2.1 rfl).2
  have e : ((10 : Nat) : Int) - ((0 : Nat) : Int) - 1 = 9 := by decide
  rw [e] at h
  exact h

/-- The source guards the prefix absorption by the operand width being
wider than a byte; that is the same as the operand scale of the width
being wider than single. -/
theorem scale_if_eq (d : Int) (os : OperandSize) :
    (if Bytecodes.OperandSizesToScale os = OperandScale.kSingle then d else d - 1)
      = (if OperandSize.kByte.value < os.value then d - 1 else d) := by
  cases os <;> simp [Bytecodes.OperandSizesToScale, OperandSize.value]

/-- C3: a jump write against an already bound label. The resolver computes
delta as the bound target minus the current offset, which is not positive;
it selects the minimal signed operand width representing that delta (the
delta fits the selected width and no width of fewer bytes fits it);
it subtracts one from the delta exactly when the scale of that width is
wider than single; and it encodes the node, rewritten to carry the
resolved operand at that width and scale, through the normal encoding
path. The two bounds hypotheses mirror the always-on checks of the
source. -/
theorem C3_backward_jump (meta : BytecodeMeta) (node : BytecodeNode) (T : Nat)
    (w : BytecodeArrayWriter) (current : Nat) (hcur : current = w.bytecodes.length)
    (h1 : T ≤ current) (h2 : current ≤ 2147483647)
    (delta : Int) (hdelta : delta = (T : Int) - (current : Int))
    (os : OperandSize) (hos : os = Bytecodes.SizeForSignedOperand delta) :
    delta ≤ 0
  ∧ fitsSigned delta os
  ∧ (∀ os2 : OperandSize, fitsSigned delta os2 → os.value ≤ os2.value)
  ∧ BytecodeArrayWriter.WriteJump meta node { bound := true, offset := some T } w
      = some
          (BytecodeArrayWriter.EmitBytecode meta
            (node.set_bytecode node.bytecode
              (SignedOperand
                (if Bytecodes.OperandSizesToScale os = OperandScale.kSingle then delta
                 else delta - 1) os)
              (Bytecodes.OperandSizesToScale os))
            (BytecodeArrayWriter.UpdateSourcePositionTable node w),
           { bound := true, offset := some T }) := by
  subst hcur
  subst hdelta
  subst hos
  refine ⟨by omega, SizeForSignedOperand_fits _ (by omega) (by omega),
    fun os2 h => SizeForSignedOperand_minimal _ os2 h, ?_⟩
  unfold BytecodeArrayWriter.WriteJump
  have hwb := UpdateSourcePositionTable_bytecodes node w
  rw [EmitJump_bound_eq meta node T _ (by rw [hwb]; omega) (by rw [hwb]; omega)]
  rw [hwb, scale_if_eq]

/-- C3 witness: a backward jump of five bytes from offset 5 to offset 0
resolves at byte width and single scale with operand -5. -/
theorem C3_backward_jump_witness :
    BytecodeArrayWriter.WriteJump testMeta jumpNode { bound := true, offset := some 0 }
        writerFive
      = some
          (BytecodeArrayWriter.EmitBytecode testMeta
            (jumpNode.set_bytecode jumpNode.bytecode (SignedOperand (-5) OperandSize.kByte)
              (Bytecodes.OperandSizesToScale OperandSize.kByte))
            (BytecodeArrayWriter.UpdateSourcePositionTable jumpNode writerFive),
           { bound := true, offset := some 0 }) := by
  have h := (C3_backward_jump testMeta jumpNode 0 writerFive 5 rfl (by decide) (by decide)
      (-5) (by decide) OperandSize.kByte (by decide)).2.2.2
  simpa [Bytecodes.OperandSizesToScale] using h

/-- C10: for a backward jump the operand width is selected from the
unadjusted delta, before the prefix-byte adjustment; the encoded operand
equals the adjusted delta reduced modulo 2 to the power of 8 times the
width, by unsigned truncation; and the node keeps that width and its
scale even when the adjusted delta no longer fits the width, so the
operand wraps rather than the width being rewidened. -/
theorem C10_backward_wrap (meta : BytecodeMeta) (node : BytecodeNode) (T : Nat)
    (w : BytecodeArrayWriter) (current : Nat) (hcur : current = w.bytecodes.length)
    (h1 : T ≤ current) (h2 : current ≤ 2147483647)
    (delta : Int) (hdelta : delta = (T : Int) - (current : Int))
    (os : OperandSize) (hos : os = Bytecodes.SizeForSignedOperand delta)
    (adjusted : Int)
    (hadj : adjusted = if OperandSize.kByte.value < os.value then delta - 1 else delta) :
    BytecodeArrayWriter.EmitJump meta node { bound := true, offset := some T } w
      = some
          (BytecodeArrayWriter.EmitBytecode meta
            (node.set_bytecode node.bytecode
              ((adjusted % (2 ^ (8 * os.value))).toNat)
              (Bytecodes.OperandSizesToScale os)) w,
           { bound := true, offset := some T }) := by
  subst hcur
  subst hdelta
  subst hos
  subst hadj
  rw [EmitJump_bound_eq meta node T w h1 h2]
  rw [SignedOperand_eq_mod _ _ (SizeForSignedOperand_ne_none _)]

/-- C10 witness: a backward jump from offset 32768 to offset 0 has
unadjusted delta -32768, which just fits 16 bits, so the width stays
kShort; the adjusted delta -32769 no longer fits and wraps to the operand
value 32767 at double scale. -/
theorem C10_backward_wrap_witness :
    BytecodeArrayWriter.EmitJump testMeta jumpNode { bound := true, offset := some 0 }
        writerFar
      = some
          (BytecodeArrayWriter.EmitBytecode testMeta
            (jumpNode.set_bytecode jumpNode.bytecode 32767 OperandScale.kDouble) writerFar,
           { bound := true, offset := some 0 }) := by
  have h := C10_backward_wrap testMeta jumpNode 0 writerFar 32768
      (by rw [show writerFar.bytecodes = List.replicate 32768 19 from rfl,
          List.length_replicate]) (by decide) (by decide) (-32768) (by decide)
      OperandSize.kShort (by decide) (-32769) (by decide)
  have e1 : (((-32769 : Int) % (2 ^ (8 * OperandSize.kShort.value))).toNat) = 32767 := by
    decide
  rw [e1] at h
  exact h

/-- A zero operand placeholder at the scale implied by an operand width
occupies exactly that many bytes, all zero. -/
theorem zero_operand_bytes (os : OperandSize) (h : os ≠ OperandSize.kNone) :
    operandByteList (scalableOperandSize (Bytecodes.OperandSizesToScale os)) 0
      = List.replicate os.value 0 := by
  cases os with
  | kNone => exact absurd rfl h
  | kByte => rfl
  | kShort => rfl
  | kQuad => rfl

/-- A node whose opcode has register bitmap zero contributes no register
entries. -/
theorem registerEntriesFrom_zero (meta : BytecodeMeta) (node : BytecodeNode) :
    ∀ (rest : List OperandType) (i : Nat), registerEntriesFrom meta node 0 i rest = [] := by
  intro rest
  induction rest with
  | nil => intro i; rfl
  | cons t r ih =>
      intro i
      rw [registerEntriesFrom]
      simp [Nat.zero_shiftRight, ih]

/-- C4: a jump write against an unbound label. The writer reserves one
constant pool slot (one more outstanding reservation, nothing committed)
and is handed the operand width that reservation currently requires; it
increments the pending jump count by one; it records the starting offset
of the jump as the referrer of the label, which stays unbound; and it
encodes the node through the normal path with its operand set to zero at
the scale implied by that width, so the emitted bytes are the optional
scale prefix, the opcode byte, and exactly width-many zero placeholder
bytes. The metadata hypotheses say that the opcode carries one scalable
immediate operand and no register operands, as jump opcodes do. -/
theorem C4_forward_jump (meta : BytecodeMeta) (node : BytecodeNode) (refr : Option Nat)
    (w : BytecodeArrayWriter)
    (htypes : meta.operandTypes node.bytecode = [OperandType.kImm])
    (hsize : ∀ sc, meta.operandSize OperandType.kImm sc = scalableOperandSize sc)
    (hbitmap : meta.registerBitmap node.bytecode = 0)
    (os : OperandSize)
    (hos : os = Bytecodes.SizeForUnsignedOperand
        (w.constant_array_builder.entries.length + w.constant_array_builder.reserved)) :
    BytecodeArrayWriter.WriteJump meta node { bound := false, offset := refr } w
      = some
          ({ bytecodes := w.bytecodes ++ scalePrefixList (Bytecodes.OperandSizesToScale os)
                ++ [Bytecodes.ToByte node.bytecode] ++ List.replicate os.value 0,
             max_register_count := w.max_register_count,
             unbound_jumps := w.unbound_jumps + 1,
             source_positions := w.source_positions ++ sourceEntryList node w.bytecodes.length,
             constant_array_builder :=
               { entries := w.constant_array_builder.entries,
                 reserved := w.constant_array_builder.reserved + 1 } },
           { bound := false, offset := some w.bytecodes.length }) := by
  subst hos
  unfold BytecodeArrayWriter.WriteJump BytecodeArrayWriter.EmitJump
  rw [UpdateSourcePositionTable_spec]
  rw [if_neg (by simp [BytecodeLabel.is_bound])]
  dsimp only [ConstantArrayBuilder.CreateReservedEntry, BytecodeLabel.set_referrer]
  rw [EmitBytecode_spec]
  dsimp only [BytecodeNode.set_bytecode]
  rw [show nodeEncoding meta
        { bytecode := node.bytecode, operands := [0],
          operand_scale := Bytecodes.OperandSizesToScale
            (Bytecodes.SizeForUnsignedOperand
              (w.constant_array_builder.entries.length + w.constant_array_builder.reserved)),
          source_info := node.source_info }
      = scalePrefixList (Bytecodes.OperandSizesToScale
            (Bytecodes.SizeForUnsignedOperand
              (w.constant_array_builder.entries.length + w.constant_array_builder.reserved)))
          ++ [Bytecodes.ToByte node.bytecode]
          ++ List.replicate
              (Bytecodes.SizeForUnsignedOperand
                (w.constant_array_builder.entries.length + w.constant_array_builder.reserved)).value
              0 from by
    rw [nodeEncoding]
    dsimp only
    rw [htypes]
    rw [operandEncodingFrom, operandEncodingFrom]
    dsimp only
    rw [hsize]
    rw [show ([0] : List Nat).getD 0 0 = 0 from rfl]
    rw [zero_operand_bytes _ (SizeForUnsignedOperand_ne_none _)]
    simp]
  rw [show nodeRegisterEntries meta
        { bytecode := node.bytecode, operands := [0],
          operand_scale := Bytecodes.OperandSizesToScale
            (Bytecodes.SizeForUnsignedOperand
              (w.constant_array_builder.entries.length + w.constant_array_builder.reserved)),
          source_info := node.source_info }
      = [] from by
    rw [nodeRegisterEntries]
    dsimp only
    rw [hbitmap, registerEntriesFrom_zero]]
  simp [List.append_assoc]

/-- C4 witness: a forward jump on the initial writer reserves the first
pool slot at byte width, emits the opcode and one zero placeholder byte,
counts one pending jump and records referrer offset 0. -/
theorem C4_forward_jump_witness :
    BytecodeArrayWriter.WriteJump testMeta jumpNode { bound := false, offset := none }
        initialWriter
      = some
          ({ bytecodes := [Bytecodes.ToByte Bytecode.kJump, 0],
             max_register_count := 0,
             unbound_jumps := 1,
             source_positions := [],
             constant_array_builder := { entries := [], reserved := 1 } },
           { bound := false, offset := some 0 }) := by
  have h := C4_forward_jump testMeta jumpNode none initialWriter rfl (fun sc => rfl) rfl
      OperandSize.kByte (by decide)
  rw [h]
  rfl

/-- C7: a plain write of a non-jump node appends exactly the scale prefix
byte (present iff the scale is wider than single), the opcode byte, and
the operand values in metadata order at the widths the metadata dictates
for the opcode, scale and operand position; those widths are 1, 2 or 4
bytes, and an operand at width s contributes exactly s little-endian
bytes; writing the identical node twice appends two byte-identical
copies of the encoding. -/
theorem C7_plain_encode (meta : BytecodeMeta) (node : BytecodeNode) (w : BytecodeArrayWriter)
    (hjump : Bytecodes.IsJump node.bytecode = false)
    (hsizes : ∀ t, t ∈ meta.operandTypes node.bytecode →
        meta.operandSize t node.operand_scale ≠ OperandSize.kNone) :
    (BytecodeArrayWriter.Write meta node w).bytecodes
        = w.bytecodes ++ scalePrefixList node.operand_scale
            ++ [Bytecodes.ToByte node.bytecode]
            ++ operandEncodingFrom meta node 0 (meta.operandTypes node.bytecode)
  ∧ (∀ t, t ∈ meta.operandTypes node.bytecode →
        (meta.operandSize t node.operand_scale).value = 1
      ∨ (meta.operandSize t node.operand_scale).value = 2
      ∨ (meta.operandSize t node.operand_scale).value = 4)
  ∧ (∀ size value, (operandByteList size value).length = size.value)
  ∧ (BytecodeArrayWriter.Write meta node (BytecodeArrayWriter.Write meta node w)).bytecodes
      = w.bytecodes ++ nodeEncoding meta node ++ nodeEncoding meta node := by
  refine ⟨?_, ?_, ?_, ?_⟩
  · rw [Write_spec]
    dsimp only
    rw [nodeEncoding]
    simp [List.append_assoc]
  · intro t ht
    cases h : meta.operandSize t node.operand_scale with
    | kNone => exact absurd h (hsizes t ht)
    | kByte => left; rfl
    | kShort => right; left; rfl
    | kQuad => right; right; rfl
  · intro size value
    cases size <;> rfl
  · rw [Write_spec, Write_spec]

/-- C7 witness: writing kLdar r5 on the empty writer appends the opcode
byte and the one-byte register operand. -/
theorem C7_plain_encode_witness :
    (BytecodeArrayWriter.Write testMeta ldarNode initialWriter).bytecodes
      = initialWriter.bytecodes ++ scalePrefixList ldarNode.operand_scale
          ++ [Bytecodes.ToByte ldarNode.bytecode]
          ++ operandEncodingFrom testMeta ldarNode 0 (testMeta.operandTypes ldarNode.bytecode) :=
  (C7_plain_encode testMeta ldarNode initialWriter rfl (by decide)).1

theorem writeSeq_cons (meta : BytecodeMeta) (n : BytecodeNode) (ns : List BytecodeNode)
    (w : BytecodeArrayWriter) :
    writeSeq meta (n :: ns) w = writeSeq meta ns (BytecodeArrayWriter.Write meta n w) := rfl

/-- The footprint after a write sequence folds the register entries of all
nodes, in order, over the starting footprint. -/
theorem writeSeq_max_register_count (meta : BytecodeMeta) :
    ∀ (nodes : List BytecodeNode) (w : BytecodeArrayWriter),
      (writeSeq meta nodes w).max_register_count
        = List.foldl max w.max_register_count (allRegisterEntries meta nodes) := by
  intro nodes
  induction nodes with
  | nil => intro w; rfl
  | cons n ns ih =>
      intro w
      rw [writeSeq_cons, ih, allRegisterEntries, List.foldl_append, Write_spec]

theorem writeSeq_unbound_jumps (meta : BytecodeMeta) :
    ∀ (nodes : List BytecodeNode) (w : BytecodeArrayWriter),
      (writeSeq meta nodes w).unbound_jumps = w.unbound_jumps := by
  intro nodes
  induction nodes with
  | nil => intro w; rfl
  | cons n ns ih =>
      intro w
      rw [writeSeq_cons, ih, Write_unbound_jumps]

theorem foldl_max_perm {l1 l2 : List Int} (h : l1.Perm l2) :
    ∀ a : Int, List.foldl max a l1 = List.foldl max a l2 := by
  induction h with
  | nil => intro a; rfl
  | cons x h ih => intro a; simp only [List.foldl]; exact ih _
  | swap x y l => intro a; simp only [List.foldl]; rw [max_swap_arg]
  | trans h1 h2 ih1 ih2 => intro a; rw [ih1 a, ih2 a]

theorem allRegisterEntries_perm (meta : BytecodeMeta) :
    ∀ {l1 l2 : List BytecodeNode}, l1.Perm l2 →
      (allRegisterEntries meta l1).Perm (allRegisterEntries meta l2) := by
  intro l1 l2 h
  induction h with
  | nil => exact List.Perm.refl _
  | cons x h ih =>
      rw [allRegisterEntries, allRegisterEntries]
      exact ih.append_left _
  | swap x y l =>
      rw [allRegisterEntries, allRegisterEntries, allRegisterEntries, allRegisterEntries]
      rw [← List.append_assoc, ← List.append_assoc]
      exact (List.perm_append_comm).append_right _
  | trans h1 h2 ih1 ih2 => exact ih1.trans ih2

/-- C8: the register footprint is updated per register-classified operand
to the maximum of the current value and index plus span (conjunct two, the
fold of the node entries), is therefore non-decreasing across every write
(conjunct one), and after any write sequence from the initial writer it
equals the running maximum, from zero, of index plus span over all
register operands encoded so far (conjunct three; prefixes of a sequence
are themselves sequences). -/
theorem C8_register_footprint (meta : BytecodeMeta) :
    (∀ node w, w.max_register_count
        ≤ (BytecodeArrayWriter.Write meta node w).max_register_count)
  ∧ (∀ node w, (BytecodeArrayWriter.Write meta node w).max_register_count
        = List.foldl max w.max_register_count (nodeRegisterEntries meta node))
  ∧ (∀ nodes, (writeSeq meta nodes initialWriter).max_register_count
        = List.foldl max 0 (allRegisterEntries meta nodes)) := by
  refine ⟨?_, ?_, ?_⟩
  · intro node w
    rw [Write_spec]
    exact foldl_max_init_le _ _
  · intro node w
    rw [Write_spec]
  · intro nodes
    rw [writeSeq_max_register_count]
    rfl

/-- C9: finalization with no pending jump produces an artifact whose frame
size is the maximum of the fixed register count and the register footprint,
multiplied by the pointer width; and the frame size is unchanged under any
permutation of the preceding writes that keeps each per-instruction
operand list, because the footprint is a fold of the same multiset of
register entries. -/
theorem C9_frame_size (meta : BytecodeMeta) (f p : Int) (h : Nat)
    (nodes1 nodes2 : List BytecodeNode) (hperm : nodes1.Perm nodes2)
    (arr : BytecodeArrayArtifact)
    (harr : BytecodeArrayWriter.ToBytecodeArray f p h (writeSeq meta nodes1 initialWriter)
        = some arr) :
    arr.frame_size
        = max f (writeSeq meta nodes1 initialWriter).max_register_count * kPointerSize
  ∧ ∃ arr2,
      BytecodeArrayWriter.ToBytecodeArray f p h (writeSeq meta nodes2 initialWriter)
          = some arr2
        ∧ arr2.frame_size = arr.frame_size := by
  have hz1 : (writeSeq meta nodes1 initialWriter).unbound_jumps = 0 := by
    rw [writeSeq_unbound_jumps]; rfl
  have hz2 : (writeSeq meta nodes2 initialWriter).unbound_jumps = 0 := by
    rw [writeSeq_unbound_jumps]; rfl
  unfold BytecodeArrayWriter.ToBytecodeArray at harr
  rw [if_pos hz1] at harr
  injection harr with harr
  subst harr
  constructor
  · show max (f * kPointerSize) _ = _
    rw [max_mul_of_nonneg f _ (show (0:Int) ≤ kPointerSize by norm_num [kPointerSize])]
  · refine
      ⟨{ bytecode_size := (writeSeq meta nodes2 initialWriter).bytecodes.length,
         bytecodes := (writeSeq meta nodes2 initialWriter).bytecodes,
         frame_size := max (f * kPointerSize)
           ((writeSeq meta nodes2 initialWriter).max_register_count * kPointerSize),
         parameter_count := p,
         constant_pool := (writeSeq meta nodes2 initialWriter).constant_array_builder.ToFixedArray,
         handler_table := h,
         source_position_table := (writeSeq meta nodes2 initialWriter).source_positions },
       ?_, ?_⟩
    · unfold BytecodeArrayWriter.ToBytecodeArray
      rw [if_pos hz2]
    · show max _ _ = max _ _
      rw [writeSeq_max_register_count, writeSeq_max_register_count,
        foldl_max_perm (allRegisterEntries_perm meta hperm)]

/-- C9 witness: writing kLdar r5 then kStar r5 in either order finalizes
with the same frame size, 48, the footprint 6 times the pointer width. -/
theorem C9_frame_size_witness :
    ∃ arr2,
      BytecodeArrayWriter.ToBytecodeArray 2 0 0
          (writeSeq testMeta
            [{ bytecode := Bytecode.kStar, operands := [5],
               operand_scale := OperandScale.kSingle, source_info := none },
             { bytecode := Bytecode.kLdar, operands := [5],
               operand_scale := OperandScale.kSingle, source_info := none }]
            initialWriter)
          = some arr2
        ∧ arr2.frame_size = 48 := by
  obtain ⟨arr2, h2, h3⟩ :=
    (C9_frame_size testMeta 2 0 0
      [{ bytecode := Bytecode.kLdar, operands := [5],
         operand_scale := OperandScale.kSingle, source_info := none },
       { bytecode := Bytecode.kStar, operands := [5],
         operand_scale := OperandScale.kSingle, source_info := none }]
      [{ bytecode := Bytecode.kStar, operands := [5],
         operand_scale := OperandScale.kSingle, source_info := none },
       { bytecode := Bytecode.kLdar, operands := [5],
         operand_scale := OperandScale.kSingle, source_info := none }]
      (List.Perm.swap _ _ _)
      { bytecode_size := 4, bytecodes := [20, 5, 21, 5], frame_size := 48,
        parameter_count := 0, constant_pool := [], handler_table := 0,
        source_position_table := [] }
      (by decide)).2
  exact ⟨arr2, h2, h3⟩

theorem countFwd_set_le (l : BytecodeLabel) :
    ∀ (ls : List BytecodeLabel) (i : Nat),
      countFwd (ls.set i l)
        ≤ countFwd ls + (if l.is_forward_target then 1 else 0) := by
  intro ls
  induction ls with
  | nil => intro i; simp [countFwd]
  | cons x rest ih =>
      intro i
      cases i with
      | zero =>
          rw [List.set, countFwd, countFwd]
          omega
      | succ n =>
          rw [List.set, countFwd, countFwd]
          have := ih n
          omega

theorem countFwd_set_fwd (l : BytecodeLabel) (hl : l.is_forward_target = false) :
    ∀ (ls : List BytecodeLabel) (i : Nat),
      (ls.getD i freshLabel).is_forward_target = true →
      countFwd (ls.set i l) + 1 = countFwd ls := by
  intro ls
  induction ls with
  | nil =>
      intro i h
      exact absurd h (by simp [freshLabel, BytecodeLabel.is_forward_target])
  | cons x rest ih =>
      intro i h
      cases i with
      | zero =>
          simp only [List.getD_cons_zero] at h
          rw [List.set, countFwd, countFwd, hl, h]
          simp [Nat.add_comm]
      | succ n =>
          simp only [List.getD_cons_succ] at h
          rw [List.set, countFwd, countFwd]
          have := ih n h
          omega

theorem countFwd_set_self (ls : List BytecodeLabel) :
    ∀ i, ls.set i (ls.getD i freshLabel) = ls := by
  induction ls with
  | nil => intro i; rfl
  | cons x rest ih =>
      intro i
      cases i with
      | zero => rfl
      | succ n =>
          rw [List.set, List.getD_cons_succ, ih n]

theorem countFwd_replicate (n : Nat) : countFwd (List.replicate n freshLabel) = 0 := by
  induction n with
  | zero => rfl
  | succ m ih =>
      rw [List.replicate, countFwd, ih]
      rfl

/-- A label freshly bound is never a forward target. -/
theorem bind_to_not_fwd (l : BytecodeLabel) (o : Nat) :
    (l.bind_to o).is_forward_target = false := rfl

/-- The two outcomes of a jump write: against a bound label the pending
jump count and the label are unchanged; against an unbound label the count
rises by exactly one and the label records the current offset as its
referrer. -/
theorem WriteJump_cases (meta : BytecodeMeta) (node : BytecodeNode) (label : BytecodeLabel)
    (w : BytecodeArrayWriter) (r : BytecodeArrayWriter × BytecodeLabel)
    (h : BytecodeArrayWriter.WriteJump meta node label w = some r) :
    (label.bound = true ∧ r.1.unbound_jumps = w.unbound_jumps ∧ r.2 = label)
  ∨ (label.bound = false ∧ r.1.unbound_jumps = w.unbound_jumps + 1
      ∧ r.2 = label.set_referrer w.bytecodes.length) := by
  unfold BytecodeArrayWriter.WriteJump BytecodeArrayWriter.EmitJump at h
  split at h
  next hb =>
    dsimp only at h
    split at h
    next hc =>
      injection h with h
      subst h
      left
      refine ⟨by simpa [BytecodeLabel.is_bound] using hb, ?_, rfl⟩
      dsimp only
      rw [EmitBytecode_unbound_jumps, UpdateSourcePositionTable_unbound_jumps]
    next hc => exact absurd h (by simp)
  next hb =>
    dsimp only at h
    injection h with h
    subst h
    right
    refine ⟨by simpa [BytecodeLabel.is_bound] using hb, ?_, ?_⟩
    · dsimp only
      rw [EmitBytecode_unbound_jumps]
      dsimp only
      rw [UpdateSourcePositionTable_unbound_jumps]
    · dsimp only
      rw [UpdateSourcePositionTable_bytecodes]

/-- One operation preserves the invariant that the pending jump count
dominates the number of labels currently recorded as forward targets. -/
theorem stepOp_inv (meta : BytecodeMeta) (s : WriterSystem) (op : WriterOp)
    (s2 : WriterSystem) (hstep : stepOp meta s op = some s2)
    (hinv : (countFwd s.labels : Int) ≤ s.writer.unbound_jumps) :
    (countFwd s2.labels : Int) ≤ s2.writer.unbound_jumps := by
  cases op with
  | write node =>
      unfold stepOp at hstep
      injection hstep with h
      subst h
      dsimp only
      rw [Write_unbound_jumps]
      exact hinv
  | writeJump node i =>
      simp only [stepOp] at hstep
      cases hW : BytecodeArrayWriter.WriteJump meta node (s.getLabel i) s.writer with
      | none => rw [hW] at hstep; exact absurd hstep (by simp)
      | some r =>
          rw [hW] at hstep
          injection hstep with h
          subst h
          dsimp only
          rcases WriteJump_cases meta node (s.getLabel i) s.writer r hW with
            ⟨hb, hu, hl⟩ | ⟨hb, hu, hl⟩
          · rw [hu, hl, show s.getLabel i = s.labels.getD i freshLabel from rfl,
              countFwd_set_self s.labels i]
            exact hinv
          · rw [hu, hl]
            have hle := countFwd_set_le
              ((s.getLabel i).set_referrer s.writer.bytecodes.length) s.labels i
            have hbit :
                (if ((s.getLabel i).set_referrer s.writer.bytecodes.length).is_forward_target
                 then 1 else 0) ≤ 1 := by
              split <;> omega
            omega
  | bindLabel i =>
      unfold stepOp at hstep
      injection hstep with h
      subst h
      dsimp only
      have h2 : (BytecodeArrayWriter.BindLabel (s.getLabel i) s.writer).2
          = (s.getLabel i).bind_to s.writer.bytecodes.length := rfl
      cases hf : (s.getLabel i).is_forward_target with
      | false =>
          have h1 : (BytecodeArrayWriter.BindLabel (s.getLabel i) s.writer).1 = s.writer := by
            unfold BytecodeArrayWriter.BindLabel
            dsimp only
            rw [if_neg (by simp [hf])]
          rw [h1, h2]
          have hle := countFwd_set_le
            ((s.getLabel i).bind_to s.writer.bytecodes.length) s.labels i
          rw [bind_to_not_fwd] at hle
          simp at hle
          omega
      | true =>
          have h1 : (BytecodeArrayWriter.BindLabel (s.getLabel i) s.writer).1
              = BytecodeArrayWriter.PatchJump s.writer.bytecodes.length
                  (s.getLabel i).offsetValue s.writer := by
            unfold BytecodeArrayWriter.BindLabel
            dsimp only
            rw [if_pos hf]
          rw [h1, h2, PatchJump_unbound_jumps]
          have heq := countFwd_set_fwd
            ((s.getLabel i).bind_to s.writer.bytecodes.length) (bind_to_not_fwd _ _)
            s.labels i hf
          omega
  | bindAlias t i =>
      unfold stepOp at hstep
      injection hstep with h
      subst h
      dsimp only
      have h2 : (BytecodeArrayWriter.BindLabelAlias (s.getLabel t) (s.getLabel i) s.writer).2
          = (s.getLabel i).bind_to (s.getLabel t).offsetValue := rfl
      cases hf : (s.getLabel i).is_forward_target with
      | false =>
          have h1 : (BytecodeArrayWriter.BindLabelAlias (s.getLabel t) (s.getLabel i)
                s.writer).1 = s.writer := by
            unfold BytecodeArrayWriter.BindLabelAlias
            dsimp only
            rw [if_neg (by simp [hf])]
          rw [h1, h2]
          have hle := countFwd_set_le
            ((s.getLabel i).bind_to (s.getLabel t).offsetValue) s.labels i
          rw [bind_to_not_fwd] at hle
          simp at hle
          omega
      | true =>
          have h1 : (BytecodeArrayWriter.BindLabelAlias (s.getLabel t) (s.getLabel i)
                s.writer).1
              = BytecodeArrayWriter.PatchJump (s.getLabel t).offsetValue
                  (s.getLabel i).offsetValue s.writer := by
            unfold BytecodeArrayWriter.BindLabelAlias
            dsimp only
            rw [if_pos hf]
          rw [h1, h2, PatchJump_unbound_jumps]
          have heq := countFwd_set_fwd
            ((s.getLabel i).bind_to (s.getLabel t).offsetValue) (bind_to_not_fwd _ _)
            s.labels i hf
          omega

theorem runOps_inv (meta : BytecodeMeta) :
    ∀ (ops : List WriterOp) (s s2 : WriterSystem), runOps meta ops s = some s2 →
      (countFwd s.labels : Int) ≤ s.writer.unbound_jumps →
      (countFwd s2.labels : Int) ≤ s2.writer.unbound_jumps := by
  intro ops
  induction ops with
  | nil =>
      intro s s2 h hinv
      injection h with h
      subst h
      exact hinv
  | cons op ops ih =>
      intro s s2 h hinv
      unfold runOps at h
      cases hs : stepOp meta s op with
      | none => rw [hs] at h; exact absurd h (by simp)
      | some s1 =>
          rw [hs] at h
          exact ih s1 s2 h (stepOp_inv meta s op s1 hs hinv)

/-- C6: the pending jump count never becomes negative along any sequence
of write, jump write and bind operations from a fresh writer (conjunct
one); a jump write against an unbound label increments it by exactly one
(conjunct two); every patch decrements it by exactly one (conjunct
three); and finalization with a positive pending jump count fails the
assertion and produces no artifact (conjunct four). -/
theorem C6_pending_jump_count (meta : BytecodeMeta) :
    (∀ (n : Nat) (ops : List WriterOp) (s : WriterSystem),
        runOps meta ops (initialSystem n) = some s → 0 ≤ s.writer.unbound_jumps)
  ∧ (∀ (node : BytecodeNode) (label : BytecodeLabel) (w : BytecodeArrayWriter)
        (r : BytecodeArrayWriter × BytecodeLabel),
        label.is_bound = false →
        BytecodeArrayWriter.WriteJump meta node label w = some r →
        r.1.unbound_jumps = w.unbound_jumps + 1)
  ∧ (∀ (jump_target jump_location : Nat) (w : BytecodeArrayWriter),
        (BytecodeArrayWriter.PatchJump jump_target jump_location w).unbound_jumps
          = w.unbound_jumps - 1)
  ∧ (∀ (f p : Int) (h : Nat) (w : BytecodeArrayWriter), 0 < w.unbound_jumps →
        BytecodeArrayWriter.ToBytecodeArray f p h w = none) := by
  refine ⟨?_, ?_, ?_, ?_⟩
  · intro n ops s h
    have hinv := runOps_inv meta ops (initialSystem n) s h
      (by rw [show (initialSystem n).labels = List.replicate n freshLabel from rfl,
            countFwd_replicate]
          exact le_refl 0)
    exact le_trans (Int.ofNat_nonneg _) hinv
  · intro node label w r hub h
    rcases WriteJump_cases meta node label w r h with ⟨hb, hu, hl⟩ | ⟨hb, hu, hl⟩
    · rw [BytecodeLabel.is_bound] at hub
      rw [hub] at hb
      exact absurd hb (by simp)
    · exact hu
  · intro jump_target jump_location w
    exact PatchJump_unbound_jumps jump_target jump_location w
  · intro f p h w hpos
    unfold BytecodeArrayWriter.ToBytecodeArray
    rw [if_neg (by omega)]

/-- C6 witness: the empty run keeps the count at zero, which is not
negative, and finalizing a writer with one pending jump yields no
artifact. -/
theorem C6_pending_jump_count_witness :
    (0 : Int) ≤ (initialSystem 0).writer.unbound_jumps
  ∧ BytecodeArrayWriter.ToBytecodeArray 0 0 0 writerPendingJump = none :=
  ⟨(C6_pending_jump_count testMeta).1 0 [] (initialSystem 0) rfl,
   (C6_pending_jump_count testMeta).2.2.2 0 0 0 writerPendingJump (by decide)⟩
